import Mathlib

/-!
Verification of the tmpufw temporal firewall-rule store (src/tmpufw.py)
against its natural-language specification.

The script is embedded shallowly:

* The duration parser `parse_time` (source lines 34-50) becomes a pure
  function on strings.  The regex
  ((\d+?)d)?((\d+?)h)?((\d+?)m)?((\d+?)s)? is a prefix matcher whose four
  optional components are modelled by `matchComp`; since every group is
  optional, re.match always returns a (possibly empty) Match object, so the
  "if not parts" branch of the source is dead code.  The digit class of \d
  on str patterns and the digit values taken by int() are the Unicode
  decimal digits (category Nd), whose table depends on the Unicode version
  of the interpreter; the classifier is therefore an explicit parameter
  `dig` of the parser, pinned down on ASCII by `digitAscii`, on which every
  Nd table agrees.  Constructing the timedelta on line 47 raises
  OverflowError at totals of 10^9 days or more, modelled as none; below
  that cap the components are digit-only, hence non-negative, so
  "total_seconds() <= 0" is exactly "total = 0" over Nat.

* The file system touched by main (PID file, rules file, temporary rules
  file, rules directory) becomes the structure `FS`; file contents are the
  list of their lines (each line implicitly newline-terminated, which is
  how every write of this program produces them).

* The firewall backend (ufw_insert / ufw_delete, source lines 168-181) is
  an oracle `Backend`; `ins` models "ufw insert <pos> <rule>", `app` models
  the fallback "ufw <rule>" command of line 163, `del` models
  "ufw delete <rule>".  An `Except` error carries the captured output of
  the failed command (CalledProcessError.output, decoded).

* Real-valued timestamps (Python floats) are modelled exactly by ℚ; the
  float-to-string conversion str() used when writing ledger lines is an
  explicit parameter `showTs : ℚ → String` of the installer.

* Raised exceptions are modelled by the `err` field of `Res`; the
  file-system state accumulated before the raise is retained, mirroring
  the fact that the interpreter performed those writes before unwinding.

* Printed reports and backend invocations are recorded in an event trace
  (`Ev`); datetime formatting of the printed timestamps is abstracted
  away, the events carry the rule text that identifies them.
-/

namespace Tmpufw

/-! ## Duration parser (source lines 34-50) -/

/-- The decimal-digit classifier and per-digit value.  Python str patterns
interpret the regex class backslash-d as the full Unicode Nd category, and
int() likewise accepts and values Unicode decimal digits; the exact Nd
table depends on the Unicode version of the interpreter, so the classifier
is an explicit parameter dig of the parser (some v when the character is a
decimal digit of value v, none otherwise), constrained in the theorems by
its version-independent restriction to ASCII, digitAscii. -/
def digitAscii (c : Char) : Option Nat :=
  if 48 ≤ c.toNat ∧ c.toNat ≤ 57 then some (c.toNat - 48) else none

/-- Digit list to number, as int() does on the digits captured by a group:
base-10 over the decimal value of each digit character. -/
def digitsToNat (dig : Char → Option Nat) (ds : List Char) : Nat :=
  ds.foldl (fun n c => 10 * n + (dig c).getD 0) 0

/-- time_str.lower().replace(" ", "") from source line 38, as a char list. -/
def normalize (s : String) : List Char :=
  (s.data.map Char.toLower).filter (fun c => c ≠ ' ')

/-- One optional regex component ((backslash-d+?)x)? matched at the current
position: consumes a non-empty digit run followed by the letter c,
otherwise consumes nothing and captures nothing. -/
def matchComp (dig : Char → Option Nat) (c : Char) (s : List Char) :
    Option Nat × List Char :=
  let ds := s.takeWhile (fun x => (dig x).isSome)
  let rest := s.dropWhile (fun x => (dig x).isSome)
  match rest with
  | r :: rs => if ds ≠ [] ∧ r = c then (some (digitsToNat dig ds), rs) else (none, s)
  | [] => (none, s)

/-- regex.match(...).groupdict() of source lines 38-42: the four captured
components (days, hours, minutes, seconds), in the fixed grammar order. -/
def timeParams (dig : Char → Option Nat) (s : String) :
    Option Nat × Option Nat × Option Nat × Option Nat :=
  let t0 := normalize s
  let dd := matchComp dig 'd' t0
  let hh := matchComp dig 'h' dd.2
  let mm := matchComp dig 'm' hh.2
  let ss := matchComp dig 's' mm.2
  (dd.1, hh.1, mm.1, ss.1)

/-- timedelta(**time_params).total_seconds() of source line 47: absent
components contribute nothing (they are not inserted into time_params). -/
def totalSeconds : Option Nat × Option Nat × Option Nat × Option Nat → Nat
  | (d, h, m, s) => 86400 * d.getD 0 + 3600 * h.getD 0 + 60 * m.getD 0 + s.getD 0

/-- The total number of seconds of the components the regex matched. -/
def componentSum (dig : Char → Option Nat) (s : String) : Nat :=
  totalSeconds (timeParams dig s)

/-- The timedelta bound: the timedelta constructor raises OverflowError
when the normalized day count exceeds 999999999 (timedelta.max is
999999999 days 23:59:59.999999), i.e. for these whole-second components
exactly when the total reaches 10^9 days worth of seconds. -/
def timedeltaCapSeconds : Nat := 86400000000000

/-- parse_time of source lines 37-50.  All groups of the regex are optional
so re.match never fails (a zero-width Match object is truthy) and the
"if not parts" branch is dead code.  Constructing
timedelta(**time_params) on line 47 raises OverflowError when the total
reaches the timedelta cap — modelled as none; below the cap the only
fallback is the non-positive-total test, which over digit-only (hence
non-negative) components means total = 0.  The 30-day default is 2592000
seconds and never overflows. -/
def parse_time (dig : Char → Option Nat) (s : String) : Option Nat :=
  if timedeltaCapSeconds ≤ componentSum dig s then none
  else if componentSum dig s = 0 then some 2592000
  else some (componentSum dig s)

/-! Congruence of the parser in the digit classifier: two classifiers that
agree on the characters of the (normalized) input parse it identically.
This is what lets the version-dependent Unicode classifier be replaced by
digitAscii on all-ASCII inputs. -/

theorem takeWhile_congr (p q : Char → Bool) (l : List Char)
    (h : ∀ x ∈ l, p x = q x) : l.takeWhile p = l.takeWhile q := by
  induction l with
  | nil => rfl
  | cons a l ih =>
    have ha := h a (List.mem_cons_self a l)
    have hl := ih (fun x hx => h x (List.mem_cons_of_mem a hx))
    simp only [List.takeWhile_cons, ha, hl]

theorem dropWhile_congr (p q : Char → Bool) (l : List Char)
    (h : ∀ x ∈ l, p x = q x) : l.dropWhile p = l.dropWhile q := by
  induction l with
  | nil => rfl
  | cons a l ih =>
    have ha := h a (List.mem_cons_self a l)
    have hl := ih (fun x hx => h x (List.mem_cons_of_mem a hx))
    simp only [List.dropWhile_cons, ha, hl]

theorem digitsToNat_congr (dig1 dig2 : Char → Option Nat) :
    ∀ (ds : List Char), (∀ x ∈ ds, dig1 x = dig2 x) → ∀ n : Nat,
      ds.foldl (fun n c => 10 * n + (dig1 c).getD 0) n =
        ds.foldl (fun n c => 10 * n + (dig2 c).getD 0) n
  | [], _, _ => rfl
  | a :: l, h, n => by
    simp only [List.foldl_cons]
    rw [h a (List.mem_cons_self a l)]
    exact digitsToNat_congr dig1 dig2 l (fun x hx => h x (List.mem_cons_of_mem a hx)) _

/-- The remaining input returned by a component match is drawn from the
input. -/
theorem matchComp_rest_subset (dig : Char → Option Nat) (c : Char) (t : List Char) :
    ∀ x ∈ (matchComp dig c t).2, x ∈ t := by
  have hsub : List.Sublist (t.dropWhile (fun x => (dig x).isSome)) t :=
    List.dropWhile_sublist _
  unfold matchComp
  simp only
  match hr : t.dropWhile (fun x => (dig x).isSome) with
  | [] => intro x hx; exact hx
  | r :: rs =>
    simp only
    rw [hr] at hsub
    by_cases hc : t.takeWhile (fun x => (dig x).isSome) ≠ [] ∧ r = c
    · rw [if_pos hc]
      intro x hx
      exact hsub.subset (List.mem_cons_of_mem r hx)
    · rw [if_neg hc]
      intro x hx
      exact hx

theorem matchComp_congr (dig1 dig2 : Char → Option Nat) (c : Char) (t : List Char)
    (h : ∀ x ∈ t, dig1 x = dig2 x) :
    matchComp dig1 c t = matchComp dig2 c t := by
  have hpred : ∀ x ∈ t, ((dig1 x).isSome : Bool) = (dig2 x).isSome :=
    fun x hx => by rw [h x hx]
  have htake := takeWhile_congr (fun x => (dig1 x).isSome) (fun x => (dig2 x).isSome) t hpred
  have hdrop := dropWhile_congr (fun x => (dig1 x).isSome) (fun x => (dig2 x).isSome) t hpred
  have hdig := digitsToNat_congr dig1 dig2 (t.takeWhile (fun x => (dig2 x).isSome))
      (fun x hx => h x ((List.takeWhile_sublist _).subset hx)) 0
  unfold matchComp digitsToNat
  simp only
  rw [htake, hdrop, hdig]

theorem timeParams_congr (dig1 dig2 : Char → Option Nat) (s : String)
    (h : ∀ x ∈ normalize s, dig1 x = dig2 x) :
    timeParams dig1 s = timeParams dig2 s := by
  have h1 := matchComp_congr dig1 dig2 'd' (normalize s) h
  have hs1 : ∀ x ∈ (matchComp dig2 'd' (normalize s)).2, dig1 x = dig2 x :=
    fun x hx => h x (matchComp_rest_subset dig2 'd' (normalize s) x hx)
  have h2 := matchComp_congr dig1 dig2 'h' _ hs1
  have hs2 : ∀ x ∈ (matchComp dig2 'h' (matchComp dig2 'd' (normalize s)).2).2,
      dig1 x = dig2 x :=
    fun x hx => hs1 x (matchComp_rest_subset dig2 'h' _ x hx)
  have h3 := matchComp_congr dig1 dig2 'm' _ hs2
  have hs3 : ∀ x ∈ (matchComp dig2 'm'
      (matchComp dig2 'h' (matchComp dig2 'd' (normalize s)).2).2).2,
      dig1 x = dig2 x :=
    fun x hx => hs2 x (matchComp_rest_subset dig2 'm' _ x hx)
  have h4 := matchComp_congr dig1 dig2 's' _ hs3
  unfold timeParams
  simp only
  rw [h1, h2, h3, h4]

theorem parse_time_congr (dig1 dig2 : Char → Option Nat) (s : String)
    (h : ∀ x ∈ normalize s, dig1 x = dig2 x) :
    parse_time dig1 s = parse_time dig2 s := by
  unfold parse_time componentSum
  rw [timeParams_congr dig1 dig2 s h]

/-- Counterexample to C4 as stated: Parse does fail for some inputs.  At a
ttl of 10^9 days the matched components total 86400000000000 seconds, the
timedelta cap, so timedelta(**time_params) at source line 47 raises
OverflowError (timedelta is bounded by 999999999 days) instead of
returning a duration.  The input is all-ASCII, on which every
Unicode-compatible digit classifier coincides with digitAscii. -/
theorem parse_time_overflow_counterexample :
    componentSum digitAscii "1000000000d" = timedeltaCapSeconds ∧
    parse_time digitAscii "1000000000d" = none := by decide

/-- C4 (amended: Parse never fails for inputs whose matched components
total less than the timedelta cap of 10^9 days; at or above the cap the
timedelta construction raises OverflowError).  For any digit classifier
agreeing with the ASCII digits on ASCII characters (as every Unicode Nd
table does): below the cap the parser returns the 30-day default exactly
when the matched components sum to zero (covering strings matching no
component, the empty string and all-zero inputs such as "0s") and
otherwise the component sum; it is insensitive to case and spaces (it
factors through normalize) and, on all-ASCII input, independent of the
classifier; and on the quoted examples parse_time "1d" = 86400 s,
parse_time "2h30m" = 9000 s, parse_time "" and parse_time "0s" fall back
to 30 days, and parse_time "1D 2H" = parse_time "1d2h". -/
theorem parse_time_total_fallback (dig : Char → Option Nat)
    (hdig : ∀ c, c.toNat < 128 → dig c = digitAscii c) :
    (∀ s, componentSum dig s < timedeltaCapSeconds →
      ∃ n, parse_time dig s = some n ∧ 0 < n) ∧
    (∀ s, timedeltaCapSeconds ≤ componentSum dig s → parse_time dig s = none) ∧
    (∀ s t, normalize s = normalize t → parse_time dig s = parse_time dig t) ∧
    (∀ s, componentSum dig s = 0 → parse_time dig s = some 2592000) ∧
    (∀ s, componentSum dig s ≠ 0 → componentSum dig s < timedeltaCapSeconds →
      parse_time dig s = some (componentSum dig s)) ∧
    (∀ s, (∀ c ∈ normalize s, c.toNat < 128) →
      parse_time dig s = parse_time digitAscii s) ∧
    parse_time dig "1d" = some 86400 ∧
    parse_time dig "2h30m" = some 9000 ∧
    parse_time dig "" = some 2592000 ∧
    parse_time dig "0s" = some 2592000 ∧
    parse_time dig "1D 2H" = parse_time dig "1d2h" := by
  have htrans : ∀ s, (∀ c ∈ normalize s, c.toNat < 128) →
      parse_time dig s = parse_time digitAscii s :=
    fun s hs => parse_time_congr dig digitAscii s (fun x hx => hdig x (hs x hx))
  refine ⟨fun s hlt => ?_, fun s hge => ?_, fun s t h => ?_, fun s h => ?_,
    fun s h hlt => ?_, htrans, ?_, ?_, ?_, ?_, ?_⟩
  · unfold parse_time
    rw [if_neg (not_le.2 hlt)]
    by_cases h0 : componentSum dig s = 0
    · rw [if_pos h0]
      exact ⟨2592000, rfl, by norm_num⟩
    · rw [if_neg h0]
      exact ⟨componentSum dig s, rfl, Nat.pos_of_ne_zero h0⟩
  · unfold parse_time
    rw [if_pos hge]
  · unfold parse_time componentSum timeParams
    rw [h]
  · have hlt : ¬ timedeltaCapSeconds ≤ componentSum dig s := by
      rw [h]; decide
    unfold parse_time
    rw [if_neg hlt, if_pos h]
  · unfold parse_time
    rw [if_neg (not_le.2 hlt), if_neg h]
  · rw [htrans "1d" (by decide)]; decide
  · rw [htrans "2h30m" (by decide)]; decide
  · rw [htrans "" (by decide)]; decide
  · rw [htrans "0s" (by decide)]; decide
  · rw [htrans "1D 2H" (by decide), htrans "1d2h" (by decide)]; decide

/-- Witness for C4 (amended): at the ASCII classifier itself, a string
matching no component falls back to the 30-day default, and the
below-cap example values hold. -/
theorem parse_time_total_fallback_witness :
    parse_time digitAscii "no-duration-here" = some 2592000 ∧
    parse_time digitAscii "2h30m" = some 9000 :=
  ⟨(parse_time_total_fallback digitAscii (fun _ _ => rfl)).2.2.2.1
      "no-duration-here" (by decide),
   (parse_time_total_fallback digitAscii (fun _ _ => rfl)).2.2.2.2.2.2.2.1⟩

/-! ## String helpers shared by the ledger operations -/

/-- line.strip("\n").split(" ", 1) of source lines 83 and 109: split at the
first space; None models the ValueError raised by unpacking when the line
has no space.  Defined on char lists for easy induction. -/
def splitSp : List Char → Option (List Char × List Char)
  | [] => none
  | c :: cs =>
    if c = ' ' then some ([], cs)
    else (splitSp cs).map (fun p => (c :: p.1, p.2))

/-- Split a ledger line into its timestamp field and its rule text. -/
def splitFirstSpace (s : String) : Option (String × String) :=
  (splitSp s.data).map (fun p => (⟨p.1⟩, ⟨p.2⟩))

/-- The rule text of a ledger line (everything after the first space). -/
def ruleOf (l : String) : Option String :=
  (splitFirstSpace l).map (fun p => p.2)

/-- Python substring membership, pat in s (source lines 135 and 141). -/
def strContains (s pat : String) : Prop := pat.data <:+: s.data

instance (s pat : String) : Decidable (strContains s pat) :=
  inferInstanceAs (Decidable (pat.data <:+: s.data))

/-- The value of int + frac/10^k for a decimal literal. -/
def decVal (ip fp : List Char) : ℚ :=
  (digitsToNat digitAscii ip : ℚ) + (digitsToNat digitAscii fp : ℚ) / ((10 : ℚ) ^ fp.length)

/-- float(timestamp) of source lines 85 and 112, on the plain decimal
forms this program itself writes ([-]digits[.digits]); exponent and
special forms are not modelled.  None models the ValueError raised on a
non-numeric field. -/
def parseDec (s : String) : Option ℚ :=
  let p : Bool × List Char :=
    match s.data with
    | c :: t => if c = '-' then (true, t) else (false, s.data)
    | [] => (false, [])
  let ip := p.2.takeWhile Char.isDigit
  let rest := p.2.dropWhile Char.isDigit
  match rest with
  | [] => if ip.isEmpty then none
          else some (cond p.1 (-(digitsToNat digitAscii ip : ℚ)) (digitsToNat digitAscii ip : ℚ))
  | c :: t =>
    if c = '.' ∧ t.all Char.isDigit ∧ ¬(ip.isEmpty ∧ t.isEmpty) then
      some (cond p.1 (-(decVal ip t)) (decVal ip t))
    else none

/-- A ledger line parsed as the sweep parses it: timestamp value and rule. -/
def parseLine (l : String) : Option (ℚ × String) :=
  match splitFirstSpace l with
  | none => none
  | some (tsStr, rule) => (parseDec tsStr).map (fun q => (q, rule))

/-- The line layout timestamp-space-rule written by the installer
(source lines 142 and 153). -/
def mkLine (t r : String) : String := t ++ " " ++ r

/-- handle.read() of source line 135: the file content seen by the
substring dedup check — every line followed by its newline. -/
def fileContent : List String → String
  | [] => ""
  | l :: ls => l ++ "\n" ++ fileContent ls

/-! ## File-system state, events and the firewall backend -/

/-- The three files main works with: the rules ledger, the well-known
temporary rules file and the PID lock file (source lines 69-75). -/
inductive FilePath0
  | rules
  | tmpRules
  | pid
deriving DecidableEq

/-- Observable events of one invocation: writes, the atomic move, file
removal, the three external ufw commands, and printed reports. -/
inductive Ev
  | write (p : FilePath0) (chunk : String)
  | move (src dst : FilePath0)
  | removeFile (p : FilePath0)
  | delCall (rule : String)
  | insCall (pos rule : String)
  | appCall (rule : String)
  | msg (s : String)
deriving DecidableEq

/-- State of the files main touches.  File contents are their lines; a
file produced by this program ends in a newline, so the line list is the
full content.  rulesDir is the existence of the ledger's directory. -/
structure FS where
  pidFile : Bool
  rulesDir : Bool
  rulesFile : Option (List String)
  tmpRulesFile : Option (List String)
deriving DecidableEq

/-- The external firewall: ufw insert <pos> <rule>, the plain fallback
ufw <rule>, and ufw delete <rule>.  An error carries the command output
(CalledProcessError.output decoded). -/
structure Backend where
  ins : String → String → Except String Unit
  app : String → Except String Unit
  del : String → Except String Unit

/-- Result of one invocation: final file-system state, event trace, and
the uncaught exception if one was raised (its message). -/
structure Res where
  fs : FS
  evs : List Ev
  err : Option String

/-- Content written to the PID file; str(getpid()) in the source, whose
value is informational only. -/
def pidContent : String := "pid"

def alreadyRunningMsg : String := "tmpufw is already running"

def fileNotFoundMsg : String := "FileNotFoundError: rules file is absent"

def overflowMsg : String := "OverflowError: timedelta exceeds 999999999 days"

def valueErrorMsg : String := "ValueError: malformed ledger line"

def updateMsg : String := "Rule already exists, updating expiration time"

/-- The exact byte string compared against on source line 161: the ufw
output ERROR: Invalid position, with the digit 1 between apostrophes and a
trailing newline — built here with explicit apostrophe characters. -/
def invalidPos1 : String :=
  "ERROR: Invalid position " ++ String.singleton (Char.ofNat 39) ++ "1"
    ++ String.singleton (Char.ofNat 39) ++ "\n"

/-! ## The sweep (--clean branch, source lines 90-126) -/

/-- Loop body of source lines 107-121 over the remaining ledger lines.
Returns the lines written to the temporary file (the keeps), the events,
and the exception that aborted the loop, if any.  A keep (current_time <
timestamp) writes the line to the temporary file and reports "skipped";
otherwise ufw delete runs: on success "deleted" is reported and the line
dropped, on CalledProcessError ufw_error (line 185) raises, aborting the
whole pass. -/
def cleanStep (B : Backend) (now : ℚ) (l : String)
    (r : List String × List Ev × Option String) :
    List String × List Ev × Option String :=
  match parseLine l with
  | none => ([], [], some valueErrorMsg)
  | some (ts, rule) =>
    if now < ts then
      (l :: r.1,
       Ev.write FilePath0.tmpRules (l ++ "\n") :: Ev.msg ("skipped rule\t" ++ rule) :: r.2.1,
       r.2.2)
    else
      match B.del rule with
      | .ok _ => (r.1, Ev.delCall rule :: Ev.msg ("deleted rule\t" ++ rule) :: r.2.1, r.2.2)
      | .error e => ([], [Ev.delCall rule], some ("ufw: " ++ e))

/-- The loop over all lines; the abort branches of cleanStep discard the
outcome of the remaining lines, which models the for-loop stopping at the
raise (the model is pure, so computing and discarding equals stopping). -/
def cleanLoop (B : Backend) (now : ℚ) : List String → List String × List Ev × Option String
  | [] => ([], [], none)
  | l :: rest => cleanStep B now l (cleanLoop B now rest)

/-- The --clean branch of main, source lines 90-126.  Fails fast when the
PID file exists; otherwise creates it, and when the ledger exists opens
the temporary rules file in append mode (so any pre-existing temporary
content survives in front of the kept lines), runs the loop, and on
success moves the temporary file over the ledger and removes the PID
file.  When the loop raises, the move and the PID removal never run. -/
def clean (B : Backend) (now : ℚ) (fs : FS) : Res :=
  if fs.pidFile then ⟨fs, [], some alreadyRunningMsg⟩
  else
    match fs.rulesFile with
    | none =>
      ⟨{ fs with pidFile := false },
       [Ev.write FilePath0.pid pidContent, Ev.removeFile FilePath0.pid], none⟩
    | some lines =>
      let tmp0 := fs.tmpRulesFile.getD []
      let r := cleanLoop B now lines
      match r.2.2 with
      | some e =>
        ⟨{ fs with pidFile := true, tmpRulesFile := some (tmp0 ++ r.1) },
         Ev.write FilePath0.pid pidContent :: r.2.1, some e⟩
      | none =>
        ⟨{ fs with pidFile := false, rulesFile := some (tmp0 ++ r.1), tmpRulesFile := none },
         Ev.write FilePath0.pid pidContent ::
           (r.2.1 ++ [Ev.move FilePath0.tmpRules FilePath0.rules,
                      Ev.removeFile FilePath0.pid]),
         none⟩

/-! ## The installer (--rule branch, source lines 127-165) -/

/-- The --rule branch of main, source lines 127-165.  makedirs creates the
ledger directory if absent (130-131); the expiration is now plus the
parsed ttl (133) — when parse_time raises OverflowError there, the
install aborts with the directory created and nothing else done; then the
ledger is opened for reading — which raises FileNotFoundError when the
file is absent (134).  The dedup check is
Python substring membership of the rule in the whole file content (135).
On a hit, every line containing the rule as a substring is rewritten in a
temporary file opened with mode "w", which is then moved over the ledger,
and the process exits without touching the firewall (136-149).  Otherwise
the new line is appended directly (in place) to the ledger file (151-155)
and ufw insert runs; on failure with exactly the invalid-position-1
output the fallback command ufw <rule> runs once (161-163), any other
output is re-raised as a ufw-prefixed exception (165). -/
def installRule (B : Backend) (dig : Char → Option Nat) (showTs : ℚ → String)
    (now : ℚ) (posStr rule ttl : String) (fs : FS) : Res :=
  let fs0 : FS := { fs with rulesDir := true }
  match parse_time dig ttl with
  | none => ⟨fs0, [], some overflowMsg⟩
  | some ttlSecs =>
  let ts : ℚ := now + (ttlSecs : ℚ)
  match fs.rulesFile with
  | none => ⟨fs0, [], some fileNotFoundMsg⟩
  | some lines =>
    if strContains (fileContent lines) rule then
      let newLine := mkLine (showTs ts) rule
      let newLines := lines.map (fun l => if strContains (l ++ "\n") rule then newLine else l)
      ⟨{ fs0 with rulesFile := some newLines, tmpRulesFile := none },
       Ev.msg updateMsg ::
         (newLines.map (fun l => Ev.write FilePath0.tmpRules (l ++ "\n")) ++
           [Ev.move FilePath0.tmpRules FilePath0.rules]),
       none⟩
    else
      let newLine := mkLine (showTs ts) rule
      let fs1 : FS := { fs0 with rulesFile := some (lines ++ [newLine]) }
      let wr := Ev.write FilePath0.rules (newLine ++ "\n")
      match B.ins posStr rule with
      | .ok _ => ⟨fs1, [wr, Ev.insCall posStr rule], none⟩
      | .error out =>
        if out = invalidPos1 then
          match B.app rule with
          | .ok _ => ⟨fs1, [wr, Ev.insCall posStr rule, Ev.appCall rule], none⟩
          | .error e2 =>
            ⟨fs1, [wr, Ev.insCall posStr rule, Ev.appCall rule],
             some ("CalledProcessError: " ++ e2)⟩
        else ⟨fs1, [wr, Ev.insCall posStr rule], some ("ufw: " ++ out)⟩

/-! ## Characterization of the sweep loop -/

/-- Whether the sweep keeps a ledger line at time now: its timestamp field
parses and lies strictly in the future (source line 112). -/
def keeps (now : ℚ) (l : String) : Bool :=
  match parseLine l with
  | none => false
  | some (ts, _) => decide (now < ts)

/-- Whether ufw delete succeeds on a rule. -/
def delOk (B : Backend) (rule : String) : Bool :=
  match B.del rule with
  | .ok _ => true
  | .error _ => false

/-- A ledger line the sweep loop passes without raising: it parses, and is
either still active or its delete succeeds. -/
def stepOk (B : Backend) (now : ℚ) (l : String) : Bool :=
  match parseLine l with
  | none => false
  | some (ts, rule) => decide (now < ts) || delOk B rule

/-- The events the loop emits for one line it passes without raising. -/
def evLine (now : ℚ) (l : String) : List Ev :=
  match parseLine l with
  | none => []
  | some (ts, rule) =>
    if now < ts then
      [Ev.write FilePath0.tmpRules (l ++ "\n"), Ev.msg ("skipped rule\t" ++ rule)]
    else
      [Ev.delCall rule, Ev.msg ("deleted rule\t" ++ rule)]

/-- Core loop lemma: over a prefix of lines that all pass, the loop keeps
exactly the still-active lines in order, emits the per-line events in file
order, and continues into the remaining lines. -/
theorem cleanLoop_append (B : Backend) (now : ℚ) (pre rest : List String)
    (h : ∀ l ∈ pre, stepOk B now l = true) :
    cleanLoop B now (pre ++ rest) =
      (pre.filter (keeps now) ++ (cleanLoop B now rest).1,
       (pre.map (evLine now)).flatten ++ (cleanLoop B now rest).2.1,
       (cleanLoop B now rest).2.2) := by
  induction pre with
  | nil => simp
  | cons l pre ih =>
    have hl := h l (List.mem_cons_self l pre)
    have hpre : ∀ x ∈ pre, stepOk B now x = true :=
      fun x hx => h x (List.mem_cons_of_mem l hx)
    have ihr := ih hpre
    rw [List.cons_append]
    show cleanStep B now l (cleanLoop B now (pre ++ rest)) = _
    rw [ihr]
    unfold cleanStep
    unfold stepOk at hl
    match hp : parseLine l with
    | none => rw [hp] at hl; simp at hl
    | some (ts, rule) =>
      rw [hp] at hl
      simp only at hl
      simp only [hp]
      by_cases hts : now < ts
      · rw [if_pos hts]
        have hk : keeps now l = true := by unfold keeps; rw [hp]; exact decide_eq_true hts
        simp [List.filter_cons, hk, evLine, hp, if_pos hts]
      · rw [if_neg hts]
        have hdel : delOk B rule = true := by
          rcases Bool.or_eq_true_iff.1 hl with h1 | h1
          · exact absurd (of_decide_eq_true h1) hts
          · exact h1
        unfold delOk at hdel
        match hd : B.del rule with
        | .ok u =>
          simp only [hd]
          have hk : keeps now l = false := by
            unfold keeps; rw [hp]; exact decide_eq_false hts
          simp [List.filter_cons, hk, evLine, hp, if_neg hts]
        | .error e => rw [hd] at hdel; simp at hdel

/-! ## String lemmas for the installer -/

theorem strData_append (s t : String) : (s ++ t).data = s.data ++ t.data := rfl

theorem mkLine_data (t r : String) : (mkLine t r).data = t.data ++ ' ' :: r.data := by
  show (t ++ " " ++ r).data = _
  rw [strData_append, strData_append]
  have hsp : " ".data = [' '] := rfl
  rw [hsp]
  simp

/-- A rule is a substring of its own ledger line. -/
theorem rule_infix_mkLine (t r : String) : r.data <:+: (mkLine t r).data := by
  rw [mkLine_data]
  exact List.IsSuffix.isInfix ⟨t.data ++ [' '], by simp⟩

/-- Substring of a line is a substring of the line with its newline. -/
theorem strContains_append_nl {l pat : String} (h : pat.data <:+: l.data) :
    strContains (l ++ "\n") pat := by
  unfold strContains
  rw [strData_append]
  exact h.trans (List.IsPrefix.isInfix ⟨"\n".data, rfl⟩)

/-- A substring of a member line is a substring of the whole file content
(whose reading is what the dedup check of source line 135 looks at). -/
theorem strContains_fileContent {lines : List String} {l pat : String}
    (hm : l ∈ lines) (h : pat.data <:+: l.data) :
    strContains (fileContent lines) pat := by
  induction lines with
  | nil => cases hm
  | cons x xs ih =>
    unfold fileContent strContains
    rw [strData_append, strData_append]
    rcases List.mem_cons.1 hm with rfl | hx
    · exact (h.trans (List.IsPrefix.isInfix ⟨"\n".data, rfl⟩)).trans
        (List.IsPrefix.isInfix ⟨(fileContent xs).data, rfl⟩)
    · have := ih hx
      unfold strContains at this
      exact this.trans (List.suffix_append (x.data ++ "\n".data) (fileContent xs).data).isInfix

/-- Roundtrip of the first-space split: the produced parts reassemble the
line, and the timestamp field contains no space. -/
theorem splitSp_eq {cs a b : List Char} (h : splitSp cs = some (a, b)) :
    cs = a ++ ' ' :: b ∧ ' ' ∉ a := by
  induction cs generalizing a b with
  | nil => simp [splitSp] at h
  | cons c cs ih =>
    unfold splitSp at h
    by_cases hc : c = ' '
    · rw [if_pos hc] at h
      simp at h
      obtain ⟨rfl, rfl⟩ := h
      exact ⟨by rw [hc]; rfl, by simp⟩
    · rw [if_neg hc] at h
      match hs : splitSp cs with
      | none => rw [hs] at h; simp at h
      | some (a0, b0) =>
        rw [hs] at h
        simp at h
        obtain ⟨rfl, rfl⟩ := h
        obtain ⟨h1, h2⟩ := ih hs
        refine ⟨by rw [List.cons_append, ← h1], ?_⟩
        intro hmem
        rcases List.mem_cons.1 hmem with h3 | h3
        · exact hc h3.symm
        · exact h2 h3

/-- Computation of the first-space split on a line built from a spaceless
timestamp field. -/
theorem splitSp_mk {a : List Char} (b : List Char) (ha : ' ' ∉ a) :
    splitSp (a ++ ' ' :: b) = some (a, b) := by
  induction a with
  | nil => simp [splitSp]
  | cons c a0 ih =>
    have hc : ¬ c = ' ' := fun h => ha (h ▸ List.mem_cons_self c a0)
    have ha0 : ' ' ∉ a0 := fun h => ha (List.mem_cons_of_mem c h)
    rw [List.cons_append]
    unfold splitSp
    rw [if_neg hc, ih ha0]
    rfl

/-- ruleOf of a line with a spaceless timestamp field. -/
theorem ruleOf_mkLine (t r : String) (ht : ' ' ∉ t.data) :
    ruleOf (mkLine t r) = some r := by
  unfold ruleOf splitFirstSpace
  rw [mkLine_data, splitSp_mk r.data ht]
  rfl

/-- A line whose rule field is r contains r as a substring. -/
theorem infix_of_ruleOf {l r : String} (h : ruleOf l = some r) : r.data <:+: l.data := by
  unfold ruleOf splitFirstSpace at h
  match hs : splitSp l.data with
  | none => rw [hs] at h; simp at h
  | some (a, b) =>
    rw [hs] at h
    simp at h
    obtain ⟨h1, h2⟩ := splitSp_eq hs
    have hb : r.data = b := by rw [← h]
    rw [h1, hb]
    exact List.IsSuffix.isInfix ⟨a ++ [' '], by simp⟩

/-! ## Behaviour of the sweep -/

/-- Equation for a fully successful sweep: when the PID file is absent,
the ledger exists, and every line parses and is either still active or
deletes successfully, the sweep ends with the ledger replaced by the
pre-existing temporary content followed by the kept lines, the temporary
file consumed by the move, the PID file removed, and the per-line events
in file order between the PID write and the final move and removal. -/
theorem clean_ok_eq (B : Backend) (now : ℚ) (fs : FS) (lines : List String)
    (hpid : fs.pidFile = false) (hr : fs.rulesFile = some lines)
    (hok : ∀ l ∈ lines, stepOk B now l = true) :
    clean B now fs =
      ⟨{ fs with
          pidFile := false,
          rulesFile := some (fs.tmpRulesFile.getD [] ++ lines.filter (keeps now)),
          tmpRulesFile := none },
       Ev.write FilePath0.pid pidContent ::
         ((lines.map (evLine now)).flatten ++
           [Ev.move FilePath0.tmpRules FilePath0.rules, Ev.removeFile FilePath0.pid]),
       none⟩ := by
  have hloop : cleanLoop B now lines =
      (lines.filter (keeps now), (lines.map (evLine now)).flatten, none) := by
    simpa [cleanLoop] using cleanLoop_append B now lines [] hok
  unfold clean
  rw [hpid, hr]
  simp [hloop]

/-- Equation for a sweep aborted by a failing delete: the lines before the
failing one all pass, the failing line is expired and its ufw delete
returns an error; ufw_error raises, so the ledger is left as it was, the
partially written temporary file holds the pre-existing temporary content
plus the keeps seen so far, the PID file stays behind, and the trace stops
at the failing delete call. -/
theorem clean_abort_eq (B : Backend) (now : ℚ) (fs : FS)
    (pre post : List String) (l : String) (ts : ℚ) (rule out : String)
    (hpid : fs.pidFile = false)
    (hr : fs.rulesFile = some (pre ++ l :: post))
    (hok : ∀ x ∈ pre, stepOk B now x = true)
    (hp : parseLine l = some (ts, rule))
    (hts : ¬ now < ts)
    (hd : B.del rule = .error out) :
    clean B now fs =
      ⟨{ fs with
          pidFile := true,
          tmpRulesFile := some (fs.tmpRulesFile.getD [] ++ pre.filter (keeps now)) },
       Ev.write FilePath0.pid pidContent ::
         ((pre.map (evLine now)).flatten ++ [Ev.delCall rule]),
       some ("ufw: " ++ out)⟩ := by
  have htail : cleanLoop B now (l :: post) = ([], [Ev.delCall rule], some ("ufw: " ++ out)) := by
    show cleanStep B now l (cleanLoop B now post) = _
    unfold cleanStep
    rw [hp]
    simp only [if_neg hts, hd]
  have hloop : cleanLoop B now (pre ++ l :: post) =
      (pre.filter (keeps now),
       (pre.map (evLine now)).flatten ++ [Ev.delCall rule],
       some ("ufw: " ++ out)) := by
    rw [cleanLoop_append B now pre (l :: post) hok, htail]
    simp
  unfold clean
  rw [hpid, hr]
  simp [hloop]

/-! ## Shared concrete inputs for witnesses and counterexamples -/

/-- A backend on which every command succeeds (as in dry-run mode, where
every ufw invocation is replaced by a print). -/
def Bok : Backend := ⟨fun _ _ => .ok (), fun _ => .ok (), fun _ => .ok ()⟩

/-- A backend whose delete fails on the rule named ruleA only. -/
def BdelFail : Backend :=
  ⟨fun _ _ => .ok (), fun _ => .ok (),
   fun r => if r = "ruleA" then .error "boom" else .ok ()⟩

/-- Ledger with two expired entries; the first one fails to delete. -/
def fsTwoExpired : FS := ⟨false, true, some ["100 ruleA", "100 ruleB"], none⟩

/-- Ledger with one active entry and a stale temporary rules file. -/
def fsStale : FS := ⟨false, true, some ["100 a"], some ["stale x"]⟩

/-- Ledger with one expired and one active entry, no temporary file. -/
def fsMixed : FS := ⟨false, true, some ["100 a", "300 b"], none⟩

/-! ## C3: sweep correctness -/

/-- Counterexample to C3 as stated: a sweep at time 50 over the ledger
containing the single still-active line (expiry 100) succeeds, but because
the temporary rules file is opened in append mode (source line 104) and
already holds a stale line, the rewritten ledger is the stale line
followed by the kept entry — not exactly the kept entries. -/
theorem sweep_exact_rewrite_counterexample :
    (clean Bok 50 fsStale).err = none ∧
    (clean Bok 50 fsStale).fs.rulesFile = some ["stale x", "100 a"] ∧
    (clean Bok 50 fsStale).fs.rulesFile ≠ some ["100 a"] := by decide

/-- C3 (amended: assuming additionally that the well-known temporary rules
file is initially absent or empty — and, as the claim already supposes,
that every line is well formed and every delete succeeds).  The sweep
processes entries in file order; every entry with expiresAt > now is kept
and reported as skipped, every entry with expiresAt <= now has the
backend delete invoked on its ruleSpec, and the rewritten ledger contains
exactly the kept entries in their original relative order. -/
theorem sweep_correctness (B : Backend) (now : ℚ) (fs : FS) (lines : List String)
    (hpid : fs.pidFile = false)
    (hr : fs.rulesFile = some lines)
    (ht : fs.tmpRulesFile.getD [] = [])
    (hok : ∀ l ∈ lines, stepOk B now l = true) :
    (clean B now fs).err = none ∧
    (clean B now fs).fs.rulesFile = some (lines.filter (keeps now)) ∧
    (clean B now fs).evs =
      Ev.write FilePath0.pid pidContent ::
        ((lines.map (evLine now)).flatten ++
          [Ev.move FilePath0.tmpRules FilePath0.rules, Ev.removeFile FilePath0.pid]) ∧
    (∀ l ∈ lines, ∀ ts rule, parseLine l = some (ts, rule) →
      (now < ts → l ∈ lines.filter (keeps now) ∧
          Ev.msg ("skipped rule\t" ++ rule) ∈ (clean B now fs).evs) ∧
      (ts ≤ now → Ev.delCall rule ∈ (clean B now fs).evs)) := by
  have he := clean_ok_eq B now fs lines hpid hr hok
  rw [he, ht]
  refine ⟨rfl, by simp, rfl, ?_⟩
  intro l hl ts rule hp
  constructor
  · intro hts
    have hk : keeps now l = true := by unfold keeps; rw [hp]; exact decide_eq_true hts
    refine ⟨List.mem_filter.2 ⟨hl, hk⟩, ?_⟩
    have hev : Ev.msg ("skipped rule\t" ++ rule) ∈ evLine now l := by
      unfold evLine; rw [hp]; simp [if_pos hts]
    exact List.mem_cons_of_mem _ (List.mem_append_left _
      (List.mem_flatten.2 ⟨evLine now l, List.mem_map_of_mem (evLine now) hl, hev⟩))
  · intro hts
    have hts2 : ¬ now < ts := not_lt.2 hts
    have hev : Ev.delCall rule ∈ evLine now l := by
      unfold evLine; rw [hp]; simp [if_neg hts2]
    exact List.mem_cons_of_mem _ (List.mem_append_left _
      (List.mem_flatten.2 ⟨evLine now l, List.mem_map_of_mem (evLine now) hl, hev⟩))

/-- Witness for C3: at time 200 over the ledger with entries expiring at
100 and 300 and no temporary file, the sweep succeeds, the rewritten
ledger holds exactly the active entry, the expired rule had its delete
invoked, and the active one was reported as skipped. -/
theorem sweep_correctness_witness :
    (clean Bok 200 fsMixed).err = none ∧
    (clean Bok 200 fsMixed).fs.rulesFile = some ["300 b"] ∧
    Ev.delCall "a" ∈ (clean Bok 200 fsMixed).evs ∧
    Ev.msg ("skipped rule\t" ++ "b") ∈ (clean Bok 200 fsMixed).evs := by
  have h := sweep_correctness Bok 200 fsMixed ["100 a", "300 b"] rfl rfl rfl (by decide)
  refine ⟨h.1, ?_, ?_, ?_⟩
  · rw [h.2.1]; decide
  · exact ((h.2.2.2 "100 a" (by decide) 100 "a" (by decide)).2 (by norm_num))
  · exact ((h.2.2.2 "300 b" (by decide) 300 "b" (by decide)).1 (by norm_num)).2

/-! ## C10: the sweep output depends on the stale temporary file -/

/-- C10. The sweep opens the temporary rules file in append mode (source
line 104), so when it starts while that file already holds content, the
rewritten ledger is that stale content followed by the kept entries —
the sweep output is not a function of the current ledger alone. -/
theorem sweep_stale_tmp (B : Backend) (now : ℚ) (fs : FS)
    (lines tmp0 : List String)
    (hpid : fs.pidFile = false)
    (hr : fs.rulesFile = some lines)
    (ht : fs.tmpRulesFile = some tmp0)
    (hok : ∀ l ∈ lines, stepOk B now l = true) :
    (clean B now fs).err = none ∧
    (clean B now fs).fs.rulesFile = some (tmp0 ++ lines.filter (keeps now)) := by
  have he := clean_ok_eq B now fs lines hpid hr hok
  rw [he, ht]
  exact ⟨rfl, rfl⟩

/-- Witness for C10: with the stale line present in the temporary file,
the successful sweep leaves the stale line in front of the kept entry. -/
theorem sweep_stale_tmp_witness :
    (clean Bok 50 fsStale).err = none ∧
    (clean Bok 50 fsStale).fs.rulesFile = some (["stale x"] ++ ["100 a"]) := by
  have h := sweep_stale_tmp Bok 50 fsStale ["100 a"] ["stale x"] rfl rfl rfl (by decide)
  refine ⟨h.1, ?_⟩
  rw [h.2]
  decide

/-! ## C2: sweep failure containment -/

/-- Counterexample to C2 as stated: with delete failing on the expired
entry ruleA, the sweep does not continue with the remaining expired entry
ruleB — ufw_error (source line 185) raises and the pass aborts, so no
delete is ever invoked for ruleB. -/
theorem sweep_failure_containment_counterexample :
    (clean BdelFail 200 fsTwoExpired).err = some ("ufw: " ++ "boom") ∧
    Ev.delCall "ruleB" ∉ (clean BdelFail 200 fsTwoExpired).evs := by decide

/-- C2 (amended): when the backend delete of an expired entry fails, the
sweep raises the backend error (reporting it as the ufw-prefixed
exception) and aborts the pass: the ledger file is left unmodified — so
the failing entry, like every other, remains in the ledger — and the
remaining entries are not processed (the trace ends at the failing delete
call). -/
theorem sweep_failure_aborts (B : Backend) (now : ℚ) (fs : FS)
    (pre post : List String) (l : String) (ts : ℚ) (rule out : String)
    (hpid : fs.pidFile = false)
    (hr : fs.rulesFile = some (pre ++ l :: post))
    (hok : ∀ x ∈ pre, stepOk B now x = true)
    (hp : parseLine l = some (ts, rule))
    (hts : ¬ now < ts)
    (hd : B.del rule = .error out) :
    (clean B now fs).err = some ("ufw: " ++ out) ∧
    (clean B now fs).fs.rulesFile = fs.rulesFile ∧
    l ∈ pre ++ l :: post ∧
    (clean B now fs).evs =
      Ev.write FilePath0.pid pidContent ::
        ((pre.map (evLine now)).flatten ++ [Ev.delCall rule]) := by
  have he := clean_abort_eq B now fs pre post l ts rule out hpid hr hok hp hts hd
  rw [he]
  exact ⟨rfl, hr.symm ▸ rfl, List.mem_append_right pre (List.mem_cons_self l post), rfl⟩

/-- Witness for C2 (amended): the concrete aborted sweep reports the ufw
error, leaves the two-entry ledger exactly as it was, and its trace ends
at the failing delete call. -/
theorem sweep_failure_aborts_witness :
    (clean BdelFail 200 fsTwoExpired).err = some ("ufw: " ++ "boom") ∧
    (clean BdelFail 200 fsTwoExpired).fs.rulesFile = some ["100 ruleA", "100 ruleB"] ∧
    (clean BdelFail 200 fsTwoExpired).evs =
      Ev.write FilePath0.pid pidContent :: [Ev.delCall "ruleA"] := by
  have h := sweep_failure_aborts BdelFail 200 fsTwoExpired [] ["100 ruleB"]
    "100 ruleA" 100 "ruleA" "boom" rfl rfl (by simp) (by decide) (by norm_num)
    (by simp [BdelFail])
  refine ⟨h.1, ?_, ?_⟩
  · rw [h.2.1]; decide
  · rw [h.2.2.2]; decide

/-! ## C9: lock protocol -/

/-- Counterexample to C9 as stated: after the sweep aborted by the failing
delete, the PID lock file is still present — the lock is not released on
this error path (remove(pid_file) on source line 126 is only reached on
the normal path). -/
theorem lock_release_counterexample :
    (clean BdelFail 200 fsTwoExpired).err ≠ none ∧
    (clean BdelFail 200 fsTwoExpired).fs.pidFile = true := by decide

/-- C9 (amended): a sweep invoked while the PID file exists fails
immediately with the already-running error, mutating nothing and calling
no backend (empty trace); when a sweep completes without raising, the PID
file is removed; but on raising exit paths (a failed delete or a
malformed line) the PID file is left in place. -/
theorem lock_protocol (B : Backend) (now : ℚ) (fs : FS) :
    (fs.pidFile = true →
      (clean B now fs).fs = fs ∧ (clean B now fs).evs = [] ∧
      (clean B now fs).err = some alreadyRunningMsg) ∧
    (fs.pidFile = false → (clean B now fs).err = none →
      (clean B now fs).fs.pidFile = false) ∧
    (fs.pidFile = false → ∀ e, (clean B now fs).err = some e →
      (clean B now fs).fs.pidFile = true) := by
  refine ⟨fun h => ?_, fun h => ?_, fun h => ?_⟩
  · unfold clean
    rw [h]
    exact ⟨rfl, rfl, rfl⟩
  · unfold clean
    rw [h]
    match hr : fs.rulesFile with
    | none => intro _; rfl
    | some lines =>
      simp only
      match he : (cleanLoop B now lines).2.2 with
      | some e => intro hc; simp at hc
      | none => intro _; rfl
  · unfold clean
    rw [h]
    match hr : fs.rulesFile with
    | none => intro e hc; simp at hc
    | some lines =>
      simp only
      match he : (cleanLoop B now lines).2.2 with
      | some e0 => intro e hc; rfl
      | none => intro e hc; simp at hc

/-- Witness for C9 (amended): a sweep started while the PID file exists
fails fast with the already-running error and leaves the state untouched;
and a successful sweep ends with the PID file absent. -/
theorem lock_protocol_witness :
    (clean Bok 200 ⟨true, true, some ["100 a"], none⟩).err = some alreadyRunningMsg ∧
    (clean Bok 200 ⟨true, true, some ["100 a"], none⟩).evs = [] ∧
    (clean Bok 200 fsMixed).err = none ∧
    (clean Bok 200 fsMixed).fs.pidFile = false := by
  refine ⟨((lock_protocol Bok 200 ⟨true, true, some ["100 a"], none⟩).1 rfl).2.2,
          ((lock_protocol Bok 200 ⟨true, true, some ["100 a"], none⟩).1 rfl).2.1,
          ?_, ?_⟩
  · decide
  · exact (lock_protocol Bok 200 fsMixed).2.1 rfl (by decide)

/-! ## Behaviour of the installer -/

/-- Map over lines none of which contain the rule is the identity. -/
theorem map_no_touch (rule newLine : String) (L : List String)
    (h : ∀ x ∈ L, ¬ strContains (x ++ "\n") rule) :
    L.map (fun l => if strContains (l ++ "\n") rule then newLine else l) = L := by
  induction L with
  | nil => rfl
  | cons x xs ih =>
    rw [List.map_cons, if_neg (h x (List.mem_cons_self x xs)),
      ih (fun y hy => h y (List.mem_cons_of_mem x hy))]

/-- Equation for the update branch of the installer: when the ledger holds
a line that is exactly some timestamp followed by the rule, and no other
line contains the rule as a substring, the dedup check of source line 135
fires, that single line is replaced (in the temporary file, moved into
place), the firewall is never touched, and the process exits normally. -/
theorem installRule_update_eq (B : Backend) (dig : Char → Option Nat)
    (showTs : ℚ → String) (now : ℚ)
    (posStr rule ttl ts0 : String) (fs : FS) (L1 L2 : List String) (n : Nat)
    (httl : parse_time dig ttl = some n)
    (hr : fs.rulesFile = some (L1 ++ mkLine ts0 rule :: L2))
    (h1 : ∀ x ∈ L1, ¬ strContains (x ++ "\n") rule)
    (h2 : ∀ x ∈ L2, ¬ strContains (x ++ "\n") rule) :
    installRule B dig showTs now posStr rule ttl fs =
      ⟨{ fs with
          rulesDir := true,
          rulesFile := some (L1 ++ mkLine (showTs (now + (n : ℚ))) rule :: L2),
          tmpRulesFile := none },
       Ev.msg updateMsg ::
         ((L1 ++ mkLine (showTs (now + (n : ℚ))) rule :: L2).map
             (fun l => Ev.write FilePath0.tmpRules (l ++ "\n")) ++
           [Ev.move FilePath0.tmpRules FilePath0.rules]),
       none⟩ := by
  have hcont : strContains (fileContent (L1 ++ mkLine ts0 rule :: L2)) rule :=
    strContains_fileContent
      (List.mem_append_right L1 (List.mem_cons_self (mkLine ts0 rule) L2))
      (rule_infix_mkLine ts0 rule)
  have hmap : (L1 ++ mkLine ts0 rule :: L2).map
      (fun l => if strContains (l ++ "\n") rule
        then mkLine (showTs (now + (n : ℚ))) rule else l) =
      L1 ++ mkLine (showTs (now + (n : ℚ))) rule :: L2 := by
    rw [List.map_append, List.map_cons]
    rw [map_no_touch rule _ L1 h1, map_no_touch rule _ L2 h2,
      if_pos (strContains_append_nl (rule_infix_mkLine ts0 rule))]
  unfold installRule
  rw [httl, hr]
  simp only [if_pos hcont, hmap]

/-! ## C1: idempotent install -/

/-- The timestamp serialization used by the concrete witnesses: a constant
spaceless string standing for str() of the computed expiration. -/
def showNine : ℚ → String := fun _ => "999"

/-- Ledger holding an unrelated entry and an entry for allow 22. -/
def fsC1w : FS := ⟨false, true, some ["50 other", mkLine "100" "allow 22"], none⟩

/-- Ledger holding entries for allow 22 and for allow 222. -/
def fsC1c : FS := ⟨false, true, some [mkLine "100" "allow 22", mkLine "100" "allow 222"], none⟩

/-- Counterexample to C1 as stated: the ledger holds an entry whose
ruleSpec is exactly allow 22 and another entry for allow 222.  Installing
allow 22 again rewrites **both** lines — the dedup of source line 141 is
substring containment — leaving two identical entries for allow 22 (and
destroying the allow 222 entry), not exactly one entry. -/
theorem install_idempotent_counterexample :
    (installRule Bok digitAscii showNine 0 "1" "allow 22" "1d" fsC1c).fs.rulesFile =
      some ["999 allow 22", "999 allow 22"] ∧
    ((installRule Bok digitAscii showNine 0 "1" "allow 22" "1d" fsC1c).fs.rulesFile.getD
        []).countP
      (fun l => ruleOf l == some "allow 22") = 2 := by decide

/-- C1 (amended: assuming additionally that the ruleSpec occurs as a
substring of no ledger line other than its own entry — without this the
substring dedup rewrites unrelated lines, see the counterexample).  When
the ledger already contains an entry whose ruleSpec is identical to the
one installed, installing again with any ttl updates that entry in place
to the new expiration now + parse(ttl), leaves every other line unchanged
— hence exactly one entry for that ruleSpec — and never invokes the
backend insert. -/
theorem install_idempotent (B : Backend) (dig : Char → Option Nat)
    (showTs : ℚ → String) (now : ℚ)
    (posStr rule ttl ts0 : String) (fs : FS) (L1 L2 : List String) (n : Nat)
    (httl : parse_time dig ttl = some n)
    (hr : fs.rulesFile = some (L1 ++ mkLine ts0 rule :: L2))
    (h1 : ∀ x ∈ L1, ¬ strContains (x ++ "\n") rule)
    (h2 : ∀ x ∈ L2, ¬ strContains (x ++ "\n") rule)
    (hshow : ' ' ∉ (showTs (now + (n : ℚ))).data) :
    (installRule B dig showTs now posStr rule ttl fs).err = none ∧
    (installRule B dig showTs now posStr rule ttl fs).fs.rulesFile =
      some (L1 ++ mkLine (showTs (now + (n : ℚ))) rule :: L2) ∧
    (L1 ++ mkLine (showTs (now + (n : ℚ))) rule :: L2).countP
      (fun l => ruleOf l == some rule) = 1 ∧
    (∀ p r, Ev.insCall p r ∉ (installRule B dig showTs now posStr rule ttl fs).evs) ∧
    (∀ r, Ev.appCall r ∉ (installRule B dig showTs now posStr rule ttl fs).evs) := by
  have he := installRule_update_eq B dig showTs now posStr rule ttl ts0 fs L1 L2 n
    httl hr h1 h2
  have hzero : ∀ x ∈ L1 ++ L2,
      ((fun l => ruleOf l == some rule) x) ≠ true := by
    intro x hx hbeq
    have hx2 : ruleOf x = some rule := by simpa using hbeq
    have hinf := infix_of_ruleOf hx2
    rcases List.mem_append.1 hx with h | h
    · exact h1 x h (strContains_append_nl hinf)
    · exact h2 x h (strContains_append_nl hinf)
  refine ⟨by rw [he], by rw [he], ?_, ?_, ?_⟩
  · rw [List.countP_append, List.countP_cons]
    have hz1 : L1.countP (fun l => ruleOf l == some rule) = 0 :=
      List.countP_eq_zero.2 (fun x hx => hzero x (List.mem_append_left L2 hx))
    have hz2 : L2.countP (fun l => ruleOf l == some rule) = 0 :=
      List.countP_eq_zero.2 (fun x hx => hzero x (List.mem_append_right L1 hx))
    have hone : (ruleOf (mkLine (showTs (now + (n : ℚ))) rule) == some rule) = true := by
      rw [ruleOf_mkLine _ _ hshow]
      simp
    rw [hz1, hz2, hone]
    simp
  · intro p r hmem
    rw [he] at hmem
    simp at hmem
  · intro r hmem
    rw [he] at hmem
    simp at hmem

/-- Witness for C1 (amended): re-installing allow 22 with ttl 1d into the
ledger that tracks it (plus one unrelated entry) refreshes its line in
place, keeps exactly one entry for it, and performs no insert call. -/
theorem install_idempotent_witness :
    (installRule Bok digitAscii showNine 0 "1" "allow 22" "1d" fsC1w).err = none ∧
    (installRule Bok digitAscii showNine 0 "1" "allow 22" "1d" fsC1w).fs.rulesFile =
      some ["50 other", "999 allow 22"] ∧
    Ev.insCall "1" "allow 22"
      ∉ (installRule Bok digitAscii showNine 0 "1" "allow 22" "1d" fsC1w).evs := by
  have h := install_idempotent Bok digitAscii showNine 0 "1" "allow 22" "1d" "100" fsC1w
    ["50 other"] [] 86400 (by decide) rfl (by decide) (by simp) (by decide)
  refine ⟨h.1, ?_, h.2.2.2.1 "1" "allow 22"⟩
  rw [h.2.1]
  decide

/-! ## C5: dedup is substring containment, not exact equality -/

/-- Ledger holding only an entry for allow 222. -/
def fsC5 : FS := ⟨false, true, some [mkLine "100" "allow 222"], none⟩

/-- C5: demonstration of the code bug at the failing input.  The ledger
contains no entry whose ruleSpec equals allow 22 — only allow 222 — yet
installing allow 22 takes the duplicate branch (substring containment,
source lines 135 and 141): it rewrites the allow 222 entry into an
allow 22 entry, appends nothing, and never calls the backend insert,
where the claim (exact string equality dedup) requires an appended new
entry and an insert. -/
theorem install_substring_match_bug :
    (installRule Bok digitAscii showNine 0 "1" "allow 22" "1d" fsC5).fs.rulesFile =
      some ["999 allow 22"] ∧
    (installRule Bok digitAscii showNine 0 "1" "allow 22" "1d" fsC5).evs =
      [Ev.msg updateMsg, Ev.write FilePath0.tmpRules ("999 allow 22" ++ "\n"),
       Ev.move FilePath0.tmpRules FilePath0.rules] ∧
    (installRule Bok digitAscii showNine 0 "1" "allow 22" "1d" fsC5).err = none := by decide

/-! ## C6: first install with no ledger file -/

/-- C6: when the rules file is absent the installer creates the directory
(makedirs, source lines 130-131) but then opens the rules file for
reading (line 134), which raises FileNotFoundError: the install fails,
no ledger entry is written, no event happens — the claim that the first
install succeeds and creates the file does not hold on this code. -/
theorem install_missing_ledger (B : Backend) (dig : Char → Option Nat)
    (showTs : ℚ → String) (now : ℚ)
    (posStr rule ttl : String) (fs : FS) (n : Nat)
    (httl : parse_time dig ttl = some n)
    (h : fs.rulesFile = none) :
    (installRule B dig showTs now posStr rule ttl fs).err = some fileNotFoundMsg ∧
    (installRule B dig showTs now posStr rule ttl fs).fs.rulesFile = none ∧
    (installRule B dig showTs now posStr rule ttl fs).fs.rulesDir = true ∧
    (installRule B dig showTs now posStr rule ttl fs).evs = [] := by
  unfold installRule
  rw [httl, h]
  simp

/-- Witness for C6: the fresh state (no directory, no ledger) makes the
first install raise FileNotFoundError with the directory created, the
file still absent and no backend call. -/
theorem install_missing_ledger_witness :
    (installRule Bok digitAscii showNine 0 "1" "allow 22" "1d"
      ⟨false, false, none, none⟩).err = some fileNotFoundMsg ∧
    (installRule Bok digitAscii showNine 0 "1" "allow 22" "1d"
      ⟨false, false, none, none⟩).fs.rulesFile = none ∧
    (installRule Bok digitAscii showNine 0 "1" "allow 22" "1d"
      ⟨false, false, none, none⟩).fs.rulesDir = true ∧
    (installRule Bok digitAscii showNine 0 "1" "allow 22" "1d"
      ⟨false, false, none, none⟩).evs = [] := by
  have h := install_missing_ledger Bok digitAscii showNine 0 "1" "allow 22" "1d"
    ⟨false, false, none, none⟩ 86400 (by decide) rfl
  exact ⟨h.1, h.2.1, h.2.2.1, h.2.2.2⟩

/-! ## C7: atomic replace-on-write -/

/-- Every event the sweep loop emits is a temporary-file write, a delete
call or a printed message — never a direct write to the ledger file. -/
theorem cleanLoop_evs_shape (B : Backend) (now : ℚ) (L : List String) :
    ∀ e ∈ (cleanLoop B now L).2.1,
      (∃ s, e = Ev.write FilePath0.tmpRules s) ∨
      (∃ r, e = Ev.delCall r) ∨ (∃ m, e = Ev.msg m) := by
  induction L with
  | nil => intro e he; simp [cleanLoop] at he
  | cons l rest ih =>
    intro e he
    have hstep : cleanLoop B now (l :: rest) = cleanStep B now l (cleanLoop B now rest) := rfl
    rw [hstep] at he
    unfold cleanStep at he
    match hp : parseLine l with
    | none => rw [hp] at he; simp at he
    | some (ts, rule) =>
      simp only [hp] at he
      by_cases hts : now < ts
      · rw [if_pos hts] at he
        rcases List.mem_cons.1 he with rfl | he2
        · exact Or.inl ⟨l ++ "\n", rfl⟩
        · rcases List.mem_cons.1 he2 with rfl | he3
          · exact Or.inr (Or.inr ⟨"skipped rule\t" ++ rule, rfl⟩)
          · exact ih e he3
      · rw [if_neg hts] at he
        match hd : B.del rule with
        | .ok u =>
          simp only [hd] at he
          rcases List.mem_cons.1 he with rfl | he2
          · exact Or.inr (Or.inl ⟨rule, rfl⟩)
          · rcases List.mem_cons.1 he2 with rfl | he3
            · exact Or.inr (Or.inr ⟨"deleted rule\t" ++ rule, rfl⟩)
            · exact ih e he3
        | .error e0 =>
          simp only [hd] at he
          rcases List.mem_cons.1 he with rfl | he2
          · exact Or.inr (Or.inl ⟨rule, rfl⟩)
          · simp at he2

/-- The sweep never writes to the ledger file directly. -/
theorem clean_no_rules_write (B : Backend) (now : ℚ) (fs : FS) :
    ∀ s, Ev.write FilePath0.rules s ∉ (clean B now fs).evs := by
  intro s hmem
  match hb : fs.pidFile with
  | true =>
    unfold clean at hmem
    rw [hb] at hmem
    simp at hmem
  | false =>
    unfold clean at hmem
    rw [hb] at hmem
    match hr : fs.rulesFile with
    | none => rw [hr] at hmem; simp at hmem
    | some lines =>
      rw [hr] at hmem
      simp only at hmem
      have hshape := cleanLoop_evs_shape B now lines
      match he : (cleanLoop B now lines).2.2 with
      | some e =>
        rw [he] at hmem
        rcases List.mem_cons.1 hmem with h | h
        · simp at h
        · rcases hshape _ h with ⟨s2, h2⟩ | ⟨r2, h2⟩ | ⟨m2, h2⟩ <;> simp at h2
      | none =>
        rw [he] at hmem
        rcases List.mem_cons.1 hmem with h | h
        · simp at h
        · rcases List.mem_append.1 h with h3 | h3
          · rcases hshape _ h3 with ⟨s2, h2⟩ | ⟨r2, h2⟩ | ⟨m2, h2⟩ <;> simp at h2
          · simp at h3

/-- A sweep either leaves the ledger content unchanged or its trace holds
the move of the temporary file onto the ledger. -/
theorem clean_cases (B : Backend) (now : ℚ) (fs : FS) :
    (clean B now fs).fs.rulesFile = fs.rulesFile ∨
    Ev.move FilePath0.tmpRules FilePath0.rules ∈ (clean B now fs).evs := by
  unfold clean
  match hb : fs.pidFile with
  | true => left; rfl
  | false =>
    match hr : fs.rulesFile with
    | none => left; rfl
    | some lines =>
      simp only
      match he : (cleanLoop B now lines).2.2 with
      | some e => left; rfl
      | none => right; simp

/-- When the sweep performs no move, the ledger content is unchanged. -/
theorem clean_rules_unchanged (B : Backend) (now : ℚ) (fs : FS)
    (h : Ev.move FilePath0.tmpRules FilePath0.rules ∉ (clean B now fs).evs) :
    (clean B now fs).fs.rulesFile = fs.rulesFile :=
  (clean_cases B now fs).resolve_right h

/-- Counterexample to C7 as stated: installing a new rule into an existing
(empty) ledger appends the line directly to the ledger file (source lines
151-155) — the trace holds a direct ledger write and no move of the
temporary file: the append branch of the installer does not follow the
temp-file-then-move discipline. -/
theorem atomic_replace_counterexample :
    Ev.write FilePath0.rules ("999 allow 80" ++ "\n")
      ∈ (installRule Bok digitAscii showNine 0 "1" "allow 80" "1d"
          ⟨false, true, some [], none⟩).evs ∧
    Ev.move FilePath0.tmpRules FilePath0.rules
      ∉ (installRule Bok digitAscii showNine 0 "1" "allow 80" "1d"
          ⟨false, true, some [], none⟩).evs := by
  decide

/-- C7 (amended: the temp-file-then-move discipline holds for the sweep
rewrite and for the update branch of the installer, whose only direct
ledger change is the final move — so the ledger content is untouched until
the move commits; the append branch of the installer, however, writes the
new line directly, in place, into the ledger file). -/
theorem atomic_replace (B : Backend) (dig : Char → Option Nat) (showTs : ℚ → String)
    (now : ℚ) (posStr rule ttl : String) (fs : FS) :
    (∀ s, Ev.write FilePath0.rules s ∉ (clean B now fs).evs) ∧
    (Ev.move FilePath0.tmpRules FilePath0.rules ∉ (clean B now fs).evs →
      (clean B now fs).fs.rulesFile = fs.rulesFile) ∧
    (∀ lines, fs.rulesFile = some lines → strContains (fileContent lines) rule →
      ∀ s, Ev.write FilePath0.rules s
        ∉ (installRule B dig showTs now posStr rule ttl fs).evs) ∧
    (∀ n, parse_time dig ttl = some n →
      ∀ lines, fs.rulesFile = some lines → ¬ strContains (fileContent lines) rule →
      Ev.write FilePath0.rules (mkLine (showTs (now + (n : ℚ))) rule ++ "\n")
        ∈ (installRule B dig showTs now posStr rule ttl fs).evs) := by
  refine ⟨clean_no_rules_write B now fs, clean_rules_unchanged B now fs, ?_, ?_⟩
  · intro lines hr hcont s hmem
    unfold installRule at hmem
    cases hp : parse_time dig ttl with
    | none => rw [hp] at hmem; simp at hmem
    | some n =>
      simp only [hp] at hmem
      rw [hr] at hmem
      simp only [if_pos hcont] at hmem
      simp at hmem
  · intro n httl lines hr hnc
    unfold installRule
    rw [httl, hr]
    simp only [if_neg hnc]
    match hi : B.ins posStr rule with
    | .ok u => simp [mkLine]
    | .error out =>
      simp only
      by_cases ho : out = invalidPos1
      · rw [if_pos ho]
        match ha : B.app rule with
        | .ok u => simp [mkLine]
        | .error e2 => simp [mkLine]
      · rw [if_neg ho]
        simp [mkLine]

/-- Witness for C7 (amended): the successful concrete sweep never writes
the ledger file directly, and the concrete update-branch install does not
either. -/
theorem atomic_replace_witness :
    Ev.write FilePath0.rules ("100 a" ++ "\n") ∉ (clean Bok 200 fsMixed).evs ∧
    Ev.write FilePath0.rules ("999 allow 22" ++ "\n")
      ∉ (installRule Bok digitAscii showNine 0 "1" "allow 22" "1d" fsC5).evs := by
  refine ⟨(atomic_replace Bok digitAscii showNine 200 "1" "allow 22" "1d" fsMixed).1
    ("100 a" ++ "\n"), ?_⟩
  exact (atomic_replace Bok digitAscii showNine 0 "1" "allow 22" "1d" fsC5).2.2.1
    [mkLine "100" "allow 222"] rfl (by decide) ("999 allow 22" ++ "\n")

/-! ## C8: position-invalid retry -/

/-- The invalid-position output for position 2, which the installer does
not special-case. -/
def invalidPos2 : String :=
  "ERROR: Invalid position " ++ String.singleton (Char.ofNat 39) ++ "2"
    ++ String.singleton (Char.ofNat 39) ++ "\n"

/-- Backend whose insert always fails with the invalid-position-2 output. -/
def Bpos2 : Backend := ⟨fun _ _ => .error invalidPos2, fun _ => .ok (), fun _ => .ok ()⟩

/-- Backend whose insert always fails with the invalid-position-1 output. -/
def Bpos1 : Backend := ⟨fun _ _ => .error invalidPos1, fun _ => .ok (), fun _ => .ok ()⟩

/-- Counterexample to C8 as stated: inserting at position 2 into an empty
ledger fails with the invalid-position-2 message, but the comparison of
source line 161 matches only the literal position-1 output, so no
append fallback runs and the failure is surfaced directly. -/
theorem install_retry_counterexample :
    (installRule Bpos2 digitAscii showNine 0 "2" "allow 80" "1d"
      ⟨false, true, some [], none⟩).err = some ("ufw: " ++ invalidPos2) ∧
    Ev.appCall "allow 80"
      ∉ (installRule Bpos2 digitAscii showNine 0 "2" "allow 80" "1d"
          ⟨false, true, some [], none⟩).evs := by
  decide

/-- C8 (amended: the single append fallback runs exactly when the failed
insert output is the literal invalid-position-1 message; any other insert
failure — including invalid-position errors for other position values —
is surfaced as the ufw-prefixed exception without retry, and a failing
fallback surfaces its own CalledProcessError). -/
theorem install_retry (B : Backend) (dig : Char → Option Nat) (showTs : ℚ → String)
    (now : ℚ) (posStr rule ttl : String) (fs : FS) (lines : List String) (n : Nat)
    (httl : parse_time dig ttl = some n)
    (hr : fs.rulesFile = some lines)
    (hnc : ¬ strContains (fileContent lines) rule) :
    (B.ins posStr rule = .ok () →
      (installRule B dig showTs now posStr rule ttl fs).err = none ∧
      Ev.appCall rule ∉ (installRule B dig showTs now posStr rule ttl fs).evs) ∧
    (∀ out, B.ins posStr rule = .error out → out = invalidPos1 →
      (B.app rule = .ok () →
        (installRule B dig showTs now posStr rule ttl fs).err = none ∧
        (installRule B dig showTs now posStr rule ttl fs).evs =
          [Ev.write FilePath0.rules (mkLine (showTs (now + (n : ℚ))) rule ++ "\n"),
           Ev.insCall posStr rule, Ev.appCall rule]) ∧
      (∀ e2, B.app rule = .error e2 →
        (installRule B dig showTs now posStr rule ttl fs).err =
          some ("CalledProcessError: " ++ e2) ∧
        Ev.appCall rule ∈ (installRule B dig showTs now posStr rule ttl fs).evs)) ∧
    (∀ out, B.ins posStr rule = .error out → out ≠ invalidPos1 →
      (installRule B dig showTs now posStr rule ttl fs).err = some ("ufw: " ++ out) ∧
      Ev.appCall rule ∉ (installRule B dig showTs now posStr rule ttl fs).evs) := by
  refine ⟨fun hi => ?_, fun out hi ho => ?_, fun out hi ho => ?_⟩
  · unfold installRule
    rw [hr]
    simp only [httl, if_neg hnc, hi]
    simp
  · subst ho
    refine ⟨fun ha => ?_, fun e2 ha => ?_⟩
    · unfold installRule
      rw [hr]
      simp only [httl, if_neg hnc, hi, if_pos (rfl : invalidPos1 = invalidPos1), ha]
      simp [mkLine]
    · unfold installRule
      rw [hr]
      simp only [httl, if_neg hnc, hi, if_pos (rfl : invalidPos1 = invalidPos1), ha]
      simp
  · unfold installRule
    rw [hr]
    simp only [httl, if_neg hnc, hi, if_neg ho]
    simp

/-- Witness for C8 (amended): with the backend reporting exactly the
invalid-position-1 output and a succeeding fallback, the install retries
once via the plain append command and completes without error. -/
theorem install_retry_witness :
    (installRule Bpos1 digitAscii showNine 0 "1" "allow 80" "1d"
      ⟨false, true, some [], none⟩).err = none ∧
    Ev.appCall "allow 80"
      ∈ (installRule Bpos1 digitAscii showNine 0 "1" "allow 80" "1d"
          ⟨false, true, some [], none⟩).evs := by
  have h := (install_retry Bpos1 digitAscii showNine 0 "1" "allow 80" "1d"
    ⟨false, true, some [], none⟩ [] 86400 (by decide) rfl (by decide)).2.1 invalidPos1 rfl rfl
  have h2 := h.1 rfl
  refine ⟨h2.1, ?_⟩
  rw [h2.2]
  decide

end Tmpufw
